import Mathlib

/-
Verification of the user-import reconciliation task
(src/src/scheduler/tasks/ImportUsersTask.ts, method processTenant).

The embedding models the tenant-scoped state the task touches: the staging
store of imported-user candidate records, the canonical user store, and the
per-tenant import lock.  Store operations from UserStorage and the locking
layer are not part of src/; where their behavior matters they are modelled
from the spec (section 6, Staging Store / Canonical Store / Lock Coordinator
interfaces) and each such definition carries a comment saying so.  Faults of
the asynchronous store calls are modelled by an explicit fault-injection
oracle: a some value at an operation means that call raises an exception
carrying that message, mirroring the try/catch structure of the source.
Logging calls are modelled as no-ops except the final result report
(Logging.logActionsResponse), which the spec names the Result Reporter.
-/

namespace ImportUsersTask

/-- Lifecycle status of a staged candidate record (types/GlobalType ImportStatus). -/
inductive ImportStatus where
  | ready
  | error
deriving DecidableEq, Repr

/-- Lifecycle status of a canonical user (types/User UserStatus); only the
values the task distinguishes matter: pending and any non-pending value. -/
inductive UserStatus where
  | pending
  | active
  | blocked
  | inactive
deriving DecidableEq, Repr

/-- Role of a canonical user (types/User UserRole). -/
inductive UserRole where
  | basic
  | admin
  | demo
deriving DecidableEq, Repr

/-- A staged candidate record (types/User ImportedUser): correlation key is
the email, payload is name and firstName, plus lifecycle status, optional
error description and provenance (importedBy actor, importedOn timestamp). -/
structure ImportedUser where
  id : Nat
  email : String
  name : String
  firstName : String
  status : ImportStatus
  errorDescription : Option String
  importedBy : Nat
  importedOn : Nat
deriving DecidableEq, Repr

/-- A canonical user entity (types/User User), restricted to the fields the
task reads or writes. -/
structure User where
  id : Nat
  email : String
  name : String
  firstName : String
  locale : Option String
  issuer : Bool
  deleted : Bool
  role : UserRole
  status : UserStatus
  createdBy : Nat
  createdOn : Nat
  notificationsActive : Bool
deriving DecidableEq, Repr

/-- The tenant-scoped state the task touches: staging store (insertion
order), canonical store, the id counter of the canonical store, and whether
the tenant-and-purpose import lock is currently held. -/
structure TenantState where
  importedUsers : List ImportedUser
  users : List User
  nextUserId : Nat
  lockHeld : Bool
deriving DecidableEq, Repr

/-- Aggregate result counters (types/GlobalType ActionsResponse), in the
field order of the source literal. -/
structure ActionsResponse where
  inError : Nat
  inSuccess : Nat
deriving DecidableEq, Repr

/-- Modelled from the spec: Constants.IMPORT_PAGE_SIZE lives outside src/;
the spec only requires a fixed positive page size.  A small value is chosen
so that concrete witnesses exercise multi-page runs; no theorem depends on
the particular value beyond positivity. -/
def IMPORT_PAGE_SIZE : Nat := 2

/-- The READY filter of the staging query. -/
def readyUsers (l : List ImportedUser) : List ImportedUser :=
  l.filter (fun r => decide (r.status = ImportStatus.ready))

/-- Modelled from the spec: UserStorage.getImportedUsers with filter
status READY and dbParams limit IMPORT_PAGE_SIZE, skip 0 (the source never
advances skip), in stable insertion order. -/
def getImportedUsers (l : List ImportedUser) : List ImportedUser :=
  (readyUsers l).take IMPORT_PAGE_SIZE

/-- Modelled from the spec: UserStorage.getUserByEmail, lookup of a
canonical entity by correlation key; deleted entities are returned (the
source checks foundUser.deleted itself). -/
def getUserByEmail (users : List User) (email : String) : Option User :=
  users.find? (fun u => decide (u.email = email))

/-- Modelled from the spec: UserStorage.deleteImportedUser removes the
staging record with the given id. -/
def deleteImportedUser (l : List ImportedUser) (i : Nat) : List ImportedUser :=
  l.filter (fun r => decide (r.id ≠ i))

/-- Modelled from the spec: UserStorage.saveImportedUser upserts a staging
record by id. -/
def saveImportedUser (l : List ImportedUser) (r : ImportedUser) : List ImportedUser :=
  if l.any (fun x => decide (x.id = r.id)) then
    l.map (fun x => if x.id = r.id then r else x)
  else
    l ++ [r]

/-- Modelled from the spec: Canonical Store update, persisting an entity
that already exists, replacing it by id. -/
def saveUser (users : List User) (u : User) : List User :=
  users.map (fun x => if x.id = u.id then u else x)

/-- Modelled from the spec: Canonical Store create, persisting a new entity
and returning its fresh id (the source assigns user.id from the saveUser
return value on the create path). -/
def createUser (s : TenantState) (u : User) : TenantState × Nat :=
  ({ s with users := s.users ++ [{ u with id := s.nextUserId }],
            nextUserId := s.nextUserId + 1 }, s.nextUserId)

/-- Modelled from the spec: UserStorage.saveUserRole, a separate
sub-attribute write of the role. -/
def saveUserRole (users : List User) (i : Nat) (r : UserRole) : List User :=
  users.map (fun x => if x.id = i then { x with role := r } else x)

/-- Modelled from the spec: UserStorage.saveUserStatus, a separate
sub-attribute write of the status. -/
def saveUserStatus (users : List User) (i : Nat) (st : UserStatus) : List User :=
  users.map (fun x => if x.id = i then { x with status := st } else x)

/-- Fault-injection oracle for the asynchronous store calls of the task.
Per-candidate operations are indexed by the candidate id, page fetches by
the page number; a some value means that call raises an exception with
that message.  The field report stands for the final result-reporting call
(Logging.logActionsResponse). -/
structure Faults where
  pageFetch : Nat → Option String
  lookup : Nat → Option String
  save : Nat → Option String
  saveRole : Nat → Option String
  saveStatus : Nat → Option String
  deleteImp : Nat → Option String
  saveImp : Nat → Option String
  report : Option String

/-- The fault-free oracle: every store call succeeds. -/
def noFaults : Faults :=
  ⟨fun _ => none, fun _ => none, fun _ => none, fun _ => none,
   fun _ => none, fun _ => none, fun _ => none, none⟩

/-- The new-user object built on the create path of the source, with the
deterministic defaults of the source literal; the id is assigned by the
store at creation. -/
def newUserOf (iu : ImportedUser) : User :=
  { id := 0
    email := iu.email
    name := iu.name
    firstName := iu.firstName
    locale := none
    issuer := true
    deleted := false
    role := UserRole.basic
    status := UserStatus.active
    createdBy := iu.importedBy
    createdOn := iu.importedOn
    notificationsActive := true }

/-- The body of the inner try block of the source for one candidate: the
lookup by email, the update path with its three precondition checks and the
two mutable-field writes, or the create path with its two sub-attribute
writes, each followed by the staging delete.  Returns the state as mutated
up to the point of the first raised exception together with the exception
message, or the fully mutated state and none on success. -/
def mergeImportedUser (f : Faults) (s : TenantState) (iu : ImportedUser) :
    TenantState × Option String :=
  match f.lookup iu.id with
  | some m => (s, some m)
  | none =>
    match getUserByEmail s.users iu.email with
    | some foundUser =>
      if !foundUser.issuer then
        (s, some "User is not local to the organization")
      else if foundUser.deleted then
        (s, some "User is deleted")
      else if foundUser.status ≠ UserStatus.pending then
        (s, some "User account is no longer pending")
      else
        let fu := { foundUser with name := iu.name, firstName := iu.firstName }
        match f.save iu.id with
        | some m => (s, some m)
        | none =>
          let s1 := { s with users := saveUser s.users fu }
          match f.deleteImp iu.id with
          | some m => (s1, some m)
          | none =>
            ({ s1 with importedUsers := deleteImportedUser s1.importedUsers iu.id }, none)
    | none =>
      match f.save iu.id with
      | some m => (s, some m)
      | none =>
        let cr := createUser s (newUserOf iu)
        match f.saveRole iu.id with
        | some m => (cr.1, some m)
        | none =>
          let s2 := { cr.1 with users := saveUserRole cr.1.users cr.2 UserRole.basic }
          match f.saveStatus iu.id with
          | some m => (s2, some m)
          | none =>
            let s3 := { s2 with users := saveUserStatus s2.users cr.2 UserStatus.active }
            match f.deleteImp iu.id with
            | some m => (s3, some m)
            | none =>
              ({ s3 with importedUsers := deleteImportedUser s3.importedUsers iu.id }, none)

/-- The two assignments of the catch handler of the source: the candidate
status is set to ERROR and the exception message recorded as the error
description. -/
def markError (iu : ImportedUser) (m : String) : ImportedUser :=
  { iu with status := ImportStatus.error, errorDescription := some m }

/-- Result of processing one candidate or one page: the state, the counters,
an exception that escaped the per-candidate catch handler (none in normal
operation), and the ids of the candidates attempted, in order. -/
structure StepResult where
  state : TenantState
  res : ActionsResponse
  err : Option String
  log : List Nat
deriving DecidableEq, Repr

/-- One candidate of the for loop: the inner try body, and on exception the
catch handler of the source, which marks the candidate ERROR with the
message, increments inError, and upserts it back into staging; a fault in
that upsert itself escapes the handler. -/
def processImportedUser (f : Faults) (s : TenantState) (iu : ImportedUser)
    (res : ActionsResponse) : StepResult :=
  match mergeImportedUser f s iu with
  | (s1, none) => ⟨s1, { res with inSuccess := res.inSuccess + 1 }, none, [iu.id]⟩
  | (s1, some m) =>
    let iuE := markError iu m
    let res1 := { res with inError := res.inError + 1 }
    match f.saveImp iu.id with
    | some m2 => ⟨s1, res1, some m2, [iu.id]⟩
    | none => ⟨{ s1 with importedUsers := saveImportedUser s1.importedUsers iuE }, res1, none, [iu.id]⟩

/-- The for loop over one fetched page: candidates in fetch order, stopping
early only if an exception escapes the per-candidate handler. -/
def processPage (f : Faults) (s : TenantState) (page : List ImportedUser)
    (res : ActionsResponse) : StepResult :=
  match page with
  | [] => ⟨s, res, none, []⟩
  | iu :: rest =>
    let st := processImportedUser f s iu res
    match st.err with
    | some m => ⟨st.state, st.res, some m, st.log⟩
    | none =>
      let st2 := processPage f st.state rest st.res
      ⟨st2.state, st2.res, st2.err, st.log ++ st2.log⟩

/-- How the import loop of one pass ended: the do-while condition saw an
empty page, an exception escaped to the outer catch, or the fuel bound of
the embedding was exhausted (the fuel passed by processTenant is shown
sufficient for the fault-free runs the theorems use). -/
inductive LoopExit where
  | finished
  | escaped (msg : String)
  | fuelOut
deriving DecidableEq, Repr

/-- Result of the do-while page loop. -/
structure LoopResult where
  state : TenantState
  res : ActionsResponse
  exit : LoopExit
  log : List Nat
deriving DecidableEq, Repr

/-- The do-while page loop of the source: fetch a page of READY candidates
(a page-fetch fault escapes to the outer catch), process it, and repeat
while the fetched page was non-empty.  Recursion is bounded by fuel. -/
def importLoop (f : Faults) (fuel : Nat) (pageIdx : Nat) (s : TenantState)
    (res : ActionsResponse) : LoopResult :=
  match fuel with
  | 0 => ⟨s, res, LoopExit.fuelOut, []⟩
  | fuel1 + 1 =>
    match f.pageFetch pageIdx with
    | some m => ⟨s, res, LoopExit.escaped m, []⟩
    | none =>
      let page := getImportedUsers s.importedUsers
      let st := processPage f s page res
      match st.err with
      | some m => ⟨st.state, st.res, LoopExit.escaped m, st.log⟩
      | none =>
        if page.isEmpty then ⟨st.state, st.res, LoopExit.finished, st.log⟩
        else
          let r := importLoop f fuel1 (pageIdx + 1) st.state st.res
          ⟨r.state, r.res, r.exit, st.log ++ r.log⟩

/-- Output of one invocation of the task for one tenant: the final state,
the internal counters, the aggregate handed to the Result Reporter (none if
the report never ran), the exception message handed to the generic fault
handler of the outer catch (none if no exception reached it), and the ids
of the candidates attempted, in order. -/
structure RunOutput where
  state : TenantState
  result : ActionsResponse
  reported : Option ActionsResponse
  faultReported : Option String
  log : List Nat
deriving DecidableEq, Repr

/-- The method processTenant of the source: acquire the tenant-and-purpose
lock for imports (if denied, return at once with no effect); inside the try
block run the page loop and then hand the aggregate to the Result Reporter;
any exception reaching the outer catch goes to the generic fault handler;
the finally block releases the lock on every exit path. -/
def processTenant (f : Faults) (s : TenantState) : RunOutput :=
  if s.lockHeld then ⟨s, ⟨0, 0⟩, none, none, []⟩
  else
    let s1 := { s with lockHeld := true }
    let r := importLoop f (s1.importedUsers.length + 1) 0 s1 ⟨0, 0⟩
    match r.exit with
    | LoopExit.finished =>
      match f.report with
      | some m => ⟨{ r.state with lockHeld := false }, r.res, none, some m, r.log⟩
      | none => ⟨{ r.state with lockHeld := false }, r.res, some r.res, none, r.log⟩
    | LoopExit.escaped m => ⟨{ r.state with lockHeld := false }, r.res, none, some m, r.log⟩
    | LoopExit.fuelOut => ⟨{ r.state with lockHeld := false }, r.res, none, none, r.log⟩

/-- Concrete READY candidate used by witnesses. -/
def iuA : ImportedUser := ⟨1, "a@x.com", "Doe", "Ann", ImportStatus.ready, none, 7, 100⟩

/-- Concrete READY candidate used by witnesses. -/
def iuB : ImportedUser := ⟨2, "b@x.com", "Roe", "Bob", ImportStatus.ready, none, 7, 100⟩

/-- Concrete READY candidate used by witnesses. -/
def iuC : ImportedUser := ⟨3, "c@x.com", "Poe", "Cid", ImportStatus.ready, none, 7, 100⟩

/-- Concrete canonical entity matching iuA, in the PENDING state. -/
def uPending : User :=
  ⟨10, "a@x.com", "Old", "Old", none, true, false, UserRole.basic, UserStatus.pending, 1, 1, true⟩

/-- Concrete canonical entity matching iuA, already ACTIVE (not pending). -/
def uActive : User := { uPending with status := UserStatus.active }

/-- Oracle faulting the second page fetch (page index 1), so that a run over
more than one page of candidates faults mid-pass. -/
def fPage1 : Faults :=
  { noFaults with pageFetch := fun i => if i = 1 then some "page fetch fault" else none }

/-- Oracle faulting the result report and the status sub-attribute write of
candidate 2. -/
def fMixed : Faults :=
  { noFaults with
      report := some "report fault"
      saveStatus := fun i => if i = 2 then some "store timeout" else none }

/-- Oracle faulting only the status sub-attribute write of candidate 1. -/
def fStatus1 : Faults :=
  { noFaults with saveStatus := fun i => if i = 1 then some "store timeout" else none }

lemma map_id_on {α : Type} (l : List α) (g : α → α) (h : ∀ a ∈ l, g a = a) :
    l.map g = l := by
  induction l with
  | nil => rfl
  | cons x t ih =>
    simp only [List.map_cons, h x (List.mem_cons_self x t)]
    rw [ih (fun a ha => h a (List.mem_cons_of_mem x ha))]

lemma map_upd_append (l : List User) (n : Nat) (g : User → User) (u : User)
    (h : ∀ x ∈ l, x.id ≠ n) (hu : u.id = n) :
    (l ++ [u]).map (fun x => if x.id = n then g x else x) = l ++ [g u] := by
  rw [List.map_append]
  congr 1
  · exact map_id_on l _ (fun x hx => if_neg (h x hx))
  · simp [hu]

lemma merge_success (f : Faults) (s s1 : TenantState) (iu : ImportedUser)
    (res : ActionsResponse) (hm : mergeImportedUser f s iu = (s1, none)) :
    processImportedUser f s iu res =
      ⟨s1, { res with inSuccess := res.inSuccess + 1 }, none, [iu.id]⟩ := by
  unfold processImportedUser
  rw [hm]

lemma merge_error (f : Faults) (s s1 : TenantState) (iu : ImportedUser)
    (res : ActionsResponse) (m : String)
    (hm : mergeImportedUser f s iu = (s1, some m))
    (hsi : f.saveImp iu.id = none) :
    processImportedUser f s iu res =
      ⟨{ s1 with importedUsers := saveImportedUser s1.importedUsers (markError iu m) },
       { res with inError := res.inError + 1 }, none, [iu.id]⟩ := by
  unfold processImportedUser
  rw [hm]
  simp [hsi]

lemma merge_violation (f : Faults) (s : TenantState) (iu : ImportedUser) (fu : User)
    (hl : f.lookup iu.id = none)
    (hfind : getUserByEmail s.users iu.email = some fu) :
    (fu.issuer = false →
      mergeImportedUser f s iu = (s, some "User is not local to the organization")) ∧
    (fu.issuer = true → fu.deleted = true →
      mergeImportedUser f s iu = (s, some "User is deleted")) ∧
    (fu.issuer = true → fu.deleted = false → fu.status ≠ UserStatus.pending →
      mergeImportedUser f s iu = (s, some "User account is no longer pending")) := by
  refine ⟨fun h1 => ?_, fun h1 h2 => ?_, fun h1 h2 h3 => ?_⟩
  · simp [mergeImportedUser, hl, hfind, h1]
  · simp [mergeImportedUser, hl, hfind, h1, h2]
  · simp [mergeImportedUser, hl, hfind, h1, h2, h3]

lemma processTenant_releases (f : Faults) (s : TenantState) (h : s.lockHeld = false) :
    (processTenant f s).state.lockHeld = false := by
  unfold processTenant
  rw [h]
  simp only [Bool.false_eq_true, if_false]
  split
  · split <;> rfl
  · rfl
  · rfl

/-- Claim C1: for every execution in which the import lock is acquired,
release runs on every exit path, whatever faults are injected in per-record
merges, page fetches or result reporting, so that a subsequent acquire for
the same tenant and purpose succeeds. -/
theorem claimC1_lock_always_released (f : Faults) (s : TenantState)
    (h : s.lockHeld = false) : (processTenant f s).state.lockHeld = false :=
  processTenant_releases f s h

theorem claimC1_witness :
    (TenantState.mk [iuA, iuB] [] 1 false).lockHeld = false ∧
      (processTenant fMixed ⟨[iuA, iuB], [], 1, false⟩).state.lockHeld = false :=
  ⟨rfl, claimC1_lock_always_released fMixed ⟨[iuA, iuB], [], 1, false⟩ rfl⟩

/-- Claim C2: if the lock is denied, processTenant returns immediately, not
as an error: no write to the staging store, no write to the canonical store,
nothing reported, no candidate attempted. -/
theorem claimC2_lock_denied_no_writes (f : Faults) (s : TenantState)
    (h : s.lockHeld = true) :
    processTenant f s = ⟨s, ⟨0, 0⟩, none, none, []⟩ := by
  simp [processTenant, h]

theorem claimC2_witness :
    (TenantState.mk [iuA] [uPending] 11 true).lockHeld = true ∧
      processTenant noFaults ⟨[iuA], [uPending], 11, true⟩ =
        ⟨⟨[iuA], [uPending], 11, true⟩, ⟨0, 0⟩, none, none, []⟩ :=
  ⟨rfl, claimC2_lock_denied_no_writes noFaults ⟨[iuA], [uPending], 11, true⟩ rfl⟩

lemma processPage_no_escape (f : Faults) (hsi : ∀ i, f.saveImp i = none) :
    ∀ (page : List ImportedUser) (s : TenantState) (res : ActionsResponse),
      (processPage f s page res).err = none := by
  intro page
  induction page with
  | nil => intro s res; rfl
  | cons p t ih =>
    intro s res
    simp only [processPage]
    cases hm : mergeImportedUser f s p with
    | mk s1 e =>
      cases e with
      | none =>
        rw [merge_success f s s1 p res hm]
        exact ih _ _
      | some m2 =>
        rw [merge_error f s s1 p res m2 hm (hsi p.id)]
        exact ih _ _

lemma importLoop_succ (f : Faults) (fuel idx : Nat) (s : TenantState)
    (res : ActionsResponse) :
    importLoop f (fuel + 1) idx s res =
      (match f.pageFetch idx with
       | some m => ⟨s, res, LoopExit.escaped m, []⟩
       | none =>
         let page := getImportedUsers s.importedUsers
         let st := processPage f s page res
         match st.err with
         | some m => ⟨st.state, st.res, LoopExit.escaped m, st.log⟩
         | none =>
           if page.isEmpty then ⟨st.state, st.res, LoopExit.finished, st.log⟩
           else
             let r := importLoop f fuel (idx + 1) st.state st.res
             ⟨r.state, r.res, r.exit, st.log ++ r.log⟩) := rfl

lemma importLoop_fetchFault (f : Faults) (m : String)
    (hsi : ∀ i, f.saveImp i = none) :
    ∀ (k fuel idx : Nat) (s : TenantState) (res : ActionsResponse),
      f.pageFetch (idx + k) = some m →
      (∀ j, j < k → f.pageFetch (idx + j) = none) →
      k < fuel →
      (importLoop f fuel idx s res).exit = LoopExit.finished ∨
      importLoop f fuel idx s res =
        ⟨(importLoop f k idx s res).state, (importLoop f k idx s res).res,
         LoopExit.escaped m, (importLoop f k idx s res).log⟩ := by
  intro k
  induction k with
  | zero =>
    intro fuel idx s res hk hbefore hfuel
    cases fuel with
    | zero => omega
    | succ fuel1 =>
      right
      rw [Nat.add_zero] at hk
      rw [importLoop_succ, hk]
      rfl
  | succ k ih =>
    intro fuel idx s res hk hbefore hfuel
    cases fuel with
    | zero => omega
    | succ fuel1 =>
      have h0 : f.pageFetch idx = none := by
        simpa using hbefore 0 (Nat.succ_pos k)
      have herr := processPage_no_escape f hsi (getImportedUsers s.importedUsers) s res
      have hk1 : f.pageFetch (idx + 1 + k) = some m := by
        rw [show idx + 1 + k = idx + (k + 1) from by omega]
        exact hk
      have hb1 : ∀ j, j < k → f.pageFetch (idx + 1 + j) = none := by
        intro j hj
        rw [show idx + 1 + j = idx + (j + 1) from by omega]
        exact hbefore (j + 1) (by omega)
      by_cases hpage : (getImportedUsers s.importedUsers).isEmpty = true
      · left
        rw [importLoop_succ, h0]
        simp only [herr, hpage, if_true]
      · have hp2 : (getImportedUsers s.importedUsers).isEmpty = false := by
          revert hpage
          cases (getImportedUsers s.importedUsers).isEmpty <;> simp
        rcases ih fuel1 (idx + 1)
            (processPage f s (getImportedUsers s.importedUsers) res).state
            (processPage f s (getImportedUsers s.importedUsers) res).res
            hk1 hb1 (by omega) with hfin | heq
        · left
          rw [importLoop_succ, h0]
          simp only [herr, hp2, Bool.false_eq_true, if_false]
          exact hfin
        · right
          rw [importLoop_succ, h0]
          conv_rhs => rw [importLoop_succ, h0]
          simp only [herr, hp2, Bool.false_eq_true, if_false]
          rw [heq]

/-- Claim C9: a fault raised while fetching any page, the first or a
mid-pass one, aborts the pass at that fetch, for every oracle whose
per-candidate error handler succeeds: either the staging store drained
before the faulting fetch (the loop finished, so no page-fetch fault was
raised), or the run ends with exactly the pages before the fault processed
(final state, counters and attempt log are those of the loop truncated at
the faulting fetch, so no further candidate is processed), the fault is
handed to the generic fault handler of the outer catch, nothing is
reported, and the lock is still released. -/
theorem claimC9_pageFetch_fault (f : Faults) (s : TenantState) (m : String)
    (k : Nat) (h : s.lockHeld = false)
    (hsi : ∀ i, f.saveImp i = none)
    (hk : f.pageFetch k = some m)
    (hbefore : ∀ j, j < k → f.pageFetch j = none)
    (hks : k ≤ s.importedUsers.length) :
    (importLoop f (s.importedUsers.length + 1) 0
        { s with lockHeld := true } ⟨0, 0⟩).exit = LoopExit.finished ∨
    processTenant f s =
      ⟨{ (importLoop f k 0 { s with lockHeld := true } ⟨0, 0⟩).state with
          lockHeld := false },
       (importLoop f k 0 { s with lockHeld := true } ⟨0, 0⟩).res,
       none, some m,
       (importLoop f k 0 { s with lockHeld := true } ⟨0, 0⟩).log⟩ := by
  rcases importLoop_fetchFault f m hsi k (s.importedUsers.length + 1) 0
      { s with lockHeld := true } ⟨0, 0⟩ (by simpa using hk)
      (by simpa using hbefore) (by omega) with hfin | heq
  · exact Or.inl hfin
  · right
    unfold processTenant
    rw [h]
    simp only [Bool.false_eq_true, if_false]
    rw [heq]

theorem claimC9_witness :
    (TenantState.mk [iuA, iuB, iuC] [] 1 false).lockHeld = false ∧
    fPage1.pageFetch 1 = some "page fetch fault" ∧
    processTenant fPage1 ⟨[iuA, iuB, iuC], [], 1, false⟩ =
      ⟨⟨[iuC],
        [{ newUserOf iuA with id := 1 }, { newUserOf iuB with id := 2 }], 3, false⟩,
       ⟨0, 2⟩, none, some "page fetch fault", [1, 2]⟩ := by
  refine ⟨rfl, rfl, ?_⟩
  rcases claimC9_pageFetch_fault fPage1 ⟨[iuA, iuB, iuC], [], 1, false⟩
      "page fetch fault" 1 rfl (fun _ => rfl) rfl
      (by intro j hj; have hj0 : j = 0 := by omega
          subst hj0; rfl)
      (by decide) with hfin | heq
  · exact absurd hfin (by decide)
  · exact heq.trans (by decide)

/-- Claim C4: a candidate matching an existing entity that violates an
update precondition (not locally issued, or tombstoned, or not PENDING)
leaves the canonical store unmodified, keeps the candidate in staging with
status ERROR and an error description (the message being the no-longer-
pending one whenever the entity is issued and not deleted), and increments
inError by one. -/
theorem claimC4_precondition_violation (f : Faults) (s : TenantState)
    (iu : ImportedUser) (res : ActionsResponse) (fu : User)
    (hl : f.lookup iu.id = none) (hsi : f.saveImp iu.id = none)
    (hfind : getUserByEmail s.users iu.email = some fu)
    (hviol : fu.issuer = false ∨ fu.deleted = true ∨ fu.status ≠ UserStatus.pending) :
    ∃ msg, processImportedUser f s iu res =
        ⟨{ s with importedUsers := saveImportedUser s.importedUsers (markError iu msg) },
         { res with inError := res.inError + 1 }, none, [iu.id]⟩ ∧
      (fu.issuer = true → fu.deleted = false →
        msg = "User account is no longer pending") := by
  cases hi : fu.issuer with
  | false =>
    exact ⟨"User is not local to the organization",
      merge_error f s s iu res _ ((merge_violation f s iu fu hl hfind).1 hi) hsi,
      fun h _ => absurd h (by simp [hi])⟩
  | true =>
    cases hd : fu.deleted with
    | true =>
      exact ⟨"User is deleted",
        merge_error f s s iu res _ ((merge_violation f s iu fu hl hfind).2.1 hi hd) hsi,
        fun _ h => absurd h (by simp [hd])⟩
    | false =>
      have hst : fu.status ≠ UserStatus.pending := by
        rcases hviol with h | h | h
        · simp [h] at hi
        · simp [h] at hd
        · exact h
      exact ⟨"User account is no longer pending",
        merge_error f s s iu res _ ((merge_violation f s iu fu hl hfind).2.2 hi hd hst) hsi,
        fun _ _ => rfl⟩

theorem claimC4_witness :
    getUserByEmail [uActive] iuA.email = some uActive ∧
    (uActive.issuer = false ∨ uActive.deleted = true ∨
      uActive.status ≠ UserStatus.pending) ∧
    ∃ msg, processImportedUser noFaults ⟨[iuA], [uActive], 11, false⟩ iuA ⟨0, 0⟩ =
        ⟨{ TenantState.mk [iuA] [uActive] 11 false with
            importedUsers := saveImportedUser [iuA] (markError iuA msg) },
         { ActionsResponse.mk 0 0 with inError := 0 + 1 }, none, [iuA.id]⟩ ∧
      (uActive.issuer = true → uActive.deleted = false →
        msg = "User account is no longer pending") :=
  ⟨rfl, by decide,
    claimC4_precondition_violation noFaults ⟨[iuA], [uActive], 11, false⟩ iuA ⟨0, 0⟩
      uActive rfl rfl rfl (by decide)⟩

/-- Claim C5: a candidate matching an existing entity that satisfies all
three preconditions has exactly its name and firstName applied onto the
entity, the entity persisted, the candidate deleted from staging, and
inSuccess incremented by one; every other field of the persisted entity,
its PENDING status included, is unchanged. -/
theorem claimC5_update_success (f : Faults) (s : TenantState)
    (iu : ImportedUser) (res : ActionsResponse) (fu : User)
    (hl : f.lookup iu.id = none) (hs : f.save iu.id = none)
    (hd : f.deleteImp iu.id = none)
    (hfind : getUserByEmail s.users iu.email = some fu)
    (hi : fu.issuer = true) (hdel : fu.deleted = false)
    (hp : fu.status = UserStatus.pending) :
    processImportedUser f s iu res =
      ⟨{ s with
          users := saveUser s.users { fu with name := iu.name, firstName := iu.firstName },
          importedUsers := deleteImportedUser s.importedUsers iu.id },
       { res with inSuccess := res.inSuccess + 1 }, none, [iu.id]⟩ ∧
    ({ fu with name := iu.name, firstName := iu.firstName }).status = UserStatus.pending ∧
    ({ fu with name := iu.name, firstName := iu.firstName }).id = fu.id ∧
    ({ fu with name := iu.name, firstName := iu.firstName }).email = fu.email ∧
    ({ fu with name := iu.name, firstName := iu.firstName }).role = fu.role ∧
    ({ fu with name := iu.name, firstName := iu.firstName }).issuer = fu.issuer ∧
    ({ fu with name := iu.name, firstName := iu.firstName }).deleted = fu.deleted ∧
    ({ fu with name := iu.name, firstName := iu.firstName }).locale = fu.locale ∧
    ({ fu with name := iu.name, firstName := iu.firstName }).createdBy = fu.createdBy ∧
    ({ fu with name := iu.name, firstName := iu.firstName }).createdOn = fu.createdOn ∧
    ({ fu with name := iu.name, firstName := iu.firstName }).notificationsActive =
      fu.notificationsActive := by
  refine ⟨?_, hp, rfl, rfl, rfl, rfl, rfl, rfl, rfl, rfl, rfl⟩
  have hm : mergeImportedUser f s iu =
      ({ s with
          users := saveUser s.users { fu with name := iu.name, firstName := iu.firstName },
          importedUsers := deleteImportedUser s.importedUsers iu.id }, none) := by
    simp [mergeImportedUser, hl, hfind, hi, hdel, hp, hs, hd]
  exact merge_success f s _ iu res hm

theorem claimC5_witness :
    getUserByEmail [uPending] iuA.email = some uPending ∧
    uPending.issuer = true ∧ uPending.deleted = false ∧
    uPending.status = UserStatus.pending ∧
    processImportedUser noFaults ⟨[iuA], [uPending], 11, false⟩ iuA ⟨0, 0⟩ =
      ⟨⟨[], [{ uPending with name := iuA.name, firstName := iuA.firstName }], 11, false⟩,
       ⟨0, 1⟩, none, [1]⟩ :=
  ⟨rfl, rfl, rfl, rfl, by
    have h := (claimC5_update_success noFaults ⟨[iuA], [uPending], 11, false⟩ iuA ⟨0, 0⟩
      uPending rfl rfl rfl rfl rfl rfl rfl).1
    exact h.trans (by decide)⟩

lemma saveUserRole_append_fresh (s : TenantState) (iu : ImportedUser)
    (hfresh : ∀ u ∈ s.users, u.id ≠ s.nextUserId) :
    saveUserRole (s.users ++ [{ newUserOf iu with id := s.nextUserId }])
        s.nextUserId UserRole.basic =
      s.users ++ [{ newUserOf iu with id := s.nextUserId }] := by
  unfold saveUserRole
  rw [map_upd_append s.users s.nextUserId _ _ hfresh rfl]
  simp [newUserOf]

lemma saveUserStatus_append_fresh (s : TenantState) (iu : ImportedUser)
    (hfresh : ∀ u ∈ s.users, u.id ≠ s.nextUserId) :
    saveUserStatus (s.users ++ [{ newUserOf iu with id := s.nextUserId }])
        s.nextUserId UserStatus.active =
      s.users ++ [{ newUserOf iu with id := s.nextUserId }] := by
  unfold saveUserStatus
  rw [map_upd_append s.users s.nextUserId _ _ hfresh rfl]
  simp [newUserOf]

/-- Claim C3: a READY candidate matching no existing entity has, on a
fault-free merge, exactly one new entity created with its key and the
deterministic defaults of the source (issuer true, not deleted, role BASIC,
status ACTIVE, provenance copied from the candidate), the candidate deleted
from staging, and inSuccess incremented by one. -/
theorem claimC3_create_path (f : Faults) (s : TenantState) (iu : ImportedUser)
    (res : ActionsResponse)
    (hl : f.lookup iu.id = none) (hs : f.save iu.id = none)
    (hr : f.saveRole iu.id = none) (hst : f.saveStatus iu.id = none)
    (hd : f.deleteImp iu.id = none)
    (hfind : getUserByEmail s.users iu.email = none)
    (hfresh : ∀ u ∈ s.users, u.id ≠ s.nextUserId) :
    processImportedUser f s iu res =
      ⟨⟨deleteImportedUser s.importedUsers iu.id,
        s.users ++ [{ newUserOf iu with id := s.nextUserId }],
        s.nextUserId + 1, s.lockHeld⟩,
       { res with inSuccess := res.inSuccess + 1 }, none, [iu.id]⟩ ∧
    (s.users ++ [{ newUserOf iu with id := s.nextUserId }]).filter
        (fun u => decide (u.email = iu.email)) =
      [{ newUserOf iu with id := s.nextUserId }] ∧
    ({ newUserOf iu with id := s.nextUserId }).email = iu.email ∧
    ({ newUserOf iu with id := s.nextUserId }).issuer = true ∧
    ({ newUserOf iu with id := s.nextUserId }).deleted = false ∧
    ({ newUserOf iu with id := s.nextUserId }).role = UserRole.basic ∧
    ({ newUserOf iu with id := s.nextUserId }).status = UserStatus.active ∧
    ({ newUserOf iu with id := s.nextUserId }).createdBy = iu.importedBy ∧
    ({ newUserOf iu with id := s.nextUserId }).createdOn = iu.importedOn := by
  refine ⟨?_, ?_, rfl, rfl, rfl, rfl, rfl, rfl, rfl⟩
  · have hm : mergeImportedUser f s iu =
        (⟨deleteImportedUser s.importedUsers iu.id,
          s.users ++ [{ newUserOf iu with id := s.nextUserId }],
          s.nextUserId + 1, s.lockHeld⟩, none) := by
      simp only [mergeImportedUser, hl, hfind, hs, hr, hst, hd, createUser]
      rw [saveUserRole_append_fresh s iu hfresh, saveUserStatus_append_fresh s iu hfresh]
    exact merge_success f s _ iu res hm
  · have hnone : ∀ a ∈ s.users, ¬((fun u => decide (u.email = iu.email)) a = true) := by
      have h2 : s.users.find? (fun u => decide (u.email = iu.email)) = none := hfind
      exact List.find?_eq_none.mp h2
    rw [List.filter_append, List.filter_eq_nil_iff.mpr hnone]
    simp [newUserOf]

theorem claimC3_witness :
    getUserByEmail ([] : List User) iuA.email = none ∧
    processImportedUser noFaults ⟨[iuA], [], 1, false⟩ iuA ⟨0, 0⟩ =
      ⟨⟨[], [{ newUserOf iuA with id := 1 }], 2, false⟩, ⟨0, 1⟩, none, [1]⟩ :=
  ⟨rfl, by
    have h := (claimC3_create_path noFaults ⟨[iuA], [], 1, false⟩ iuA ⟨0, 0⟩
      rfl rfl rfl rfl rfl rfl (by simp)).1
    exact h.trans (by decide)⟩

/-- Claim C6: an exception during one candidate merge is absorbed by the
per-candidate handler: the candidate is marked ERROR with the exception
message recorded, upserted back into staging, inError is incremented, and
processing continues with the next candidate of the page from the mutated
state; the exception aborts neither the page nor the pass. -/
theorem claimC6_fault_isolation (f : Faults) (s s1 : TenantState)
    (iu : ImportedUser) (rest : List ImportedUser) (res : ActionsResponse)
    (m : String)
    (hm : mergeImportedUser f s iu = (s1, some m))
    (hsi : f.saveImp iu.id = none) :
    processPage f s (iu :: rest) res =
      { processPage f
          { s1 with importedUsers := saveImportedUser s1.importedUsers (markError iu m) }
          rest { res with inError := res.inError + 1 } with
        log := iu.id :: (processPage f
          { s1 with importedUsers := saveImportedUser s1.importedUsers (markError iu m) }
          rest { res with inError := res.inError + 1 }).log } := by
  simp only [processPage]
  rw [merge_error f s s1 iu res m hm hsi]
  rfl

theorem claimC6_witness :
    mergeImportedUser noFaults ⟨[iuA, iuB], [uActive], 11, false⟩ iuA =
      (⟨[iuA, iuB], [uActive], 11, false⟩, some "User account is no longer pending") ∧
    processPage noFaults ⟨[iuA, iuB], [uActive], 11, false⟩ [iuA, iuB] ⟨0, 0⟩ =
      ⟨⟨[markError iuA "User account is no longer pending"],
        [uActive, { newUserOf iuB with id := 11 }], 12, false⟩, ⟨1, 1⟩, none, [1, 2]⟩ :=
  ⟨by decide, by
    have h := claimC6_fault_isolation noFaults ⟨[iuA, iuB], [uActive], 11, false⟩
      ⟨[iuA, iuB], [uActive], 11, false⟩ iuA [iuB] ⟨0, 0⟩
      "User account is no longer pending" (by decide) rfl
    exact h.trans (by decide)⟩

/-- Claim C10 counterexample: concrete refutation of idempotent recovery.
Pass one on one READY candidate with a fault in the status sub-attribute
write leaves the entity created and the candidate in ERROR; after the
candidate is externally reset to READY, the retry pass does not succeed via
the update path: it reports one error and zero successes and marks the
candidate no-longer-pending, because the entity created by the first pass
is ACTIVE, not PENDING. -/
theorem claimC10_counterexample :
    (processTenant fStatus1 ⟨[iuA], [], 1, false⟩).result = ⟨1, 0⟩ ∧
    (processTenant fStatus1 ⟨[iuA], [], 1, false⟩).state.users =
      [{ newUserOf iuA with id := 1 }] ∧
    (processTenant noFaults
        { (processTenant fStatus1 ⟨[iuA], [], 1, false⟩).state with
            importedUsers := [iuA] }).result = ⟨1, 0⟩ ∧
    (processTenant noFaults
        { (processTenant fStatus1 ⟨[iuA], [], 1, false⟩).state with
            importedUsers := [iuA] }).state.importedUsers =
      [markError iuA "User account is no longer pending"] :=
  ⟨by decide, by decide, by decide, by decide⟩

/-- Claim C10 amended: if the create path fails after the entity is
persisted but before the status sub-attribute write completes, the
candidate is classified as an error for that pass; a retry of the candidate
on a later pass does NOT succeed via the update path: the entity left
behind carries the default ACTIVE status, so any later merge that finds it
raises the no-longer-pending domain fault and marks the candidate ERROR
again; the code provides no idempotent recovery for this state. -/
theorem claimC10_amended (f : Faults) (s : TenantState) (iu : ImportedUser)
    (res : ActionsResponse) (m : String)
    (hl : f.lookup iu.id = none) (hs : f.save iu.id = none)
    (hr : f.saveRole iu.id = none) (hst : f.saveStatus iu.id = some m)
    (hsi : f.saveImp iu.id = none)
    (hfind : getUserByEmail s.users iu.email = none)
    (hfresh : ∀ u ∈ s.users, u.id ≠ s.nextUserId) :
    processImportedUser f s iu res =
      ⟨⟨saveImportedUser s.importedUsers (markError iu m),
        s.users ++ [{ newUserOf iu with id := s.nextUserId }],
        s.nextUserId + 1, s.lockHeld⟩,
       { res with inError := res.inError + 1 }, none, [iu.id]⟩ ∧
    ({ newUserOf iu with id := s.nextUserId }).status = UserStatus.active ∧
    ∀ (g : Faults) (s2 : TenantState) (iu2 : ImportedUser) (res2 : ActionsResponse),
      g.lookup iu2.id = none → g.saveImp iu2.id = none →
      getUserByEmail s2.users iu2.email =
        some { newUserOf iu with id := s.nextUserId } →
      processImportedUser g s2 iu2 res2 =
        ⟨{ s2 with importedUsers := saveImportedUser s2.importedUsers (markError iu2 "User account is no longer pending") },
         { res2 with inError := res2.inError + 1 }, none, [iu2.id]⟩ := by
  refine ⟨?_, rfl, fun g s2 iu2 res2 hg1 hg2 hfind2 => ?_⟩
  · have hm : mergeImportedUser f s iu =
        (⟨s.importedUsers,
          s.users ++ [{ newUserOf iu with id := s.nextUserId }],
          s.nextUserId + 1, s.lockHeld⟩, some m) := by
      simp only [mergeImportedUser, hl, hfind, hs, hr, hst, createUser]
      rw [saveUserRole_append_fresh s iu hfresh]
    exact merge_error f s _ iu res m hm hsi
  · have hv := (merge_violation g s2 iu2 { newUserOf iu with id := s.nextUserId }
      hg1 hfind2).2.2 rfl rfl (by simp [newUserOf])
    exact merge_error g s2 s2 iu2 res2 _ hv hg2

theorem claimC10_amended_witness :
    fStatus1.saveStatus 1 = some "store timeout" ∧
    getUserByEmail ([] : List User) iuA.email = none ∧
    processImportedUser fStatus1 ⟨[iuA], [], 1, false⟩ iuA ⟨0, 0⟩ =
      ⟨⟨[markError iuA "store timeout"], [{ newUserOf iuA with id := 1 }], 2, false⟩,
       ⟨1, 0⟩, none, [1]⟩ ∧
    processImportedUser noFaults ⟨[iuA], [{ newUserOf iuA with id := 1 }], 2, false⟩
        iuA ⟨0, 0⟩ =
      ⟨⟨[markError iuA "User account is no longer pending"],
        [{ newUserOf iuA with id := 1 }], 2, false⟩, ⟨1, 0⟩, none, [1]⟩ := by
  have h := claimC10_amended fStatus1 ⟨[iuA], [], 1, false⟩ iuA ⟨0, 0⟩ "store timeout"
    rfl rfl rfl rfl rfl rfl (by simp)
  refine ⟨rfl, rfl, h.1.trans (by decide), ?_⟩
  have h2 := h.2.2 noFaults ⟨[iuA], [{ newUserOf iuA with id := 1 }], 2, false⟩
    iuA ⟨0, 0⟩ rfl rfl (by decide)
  exact h2.trans (by decide)

lemma map_eq_map_on {α β : Type} (l : List α) (f g : α → β)
    (h : ∀ a ∈ l, f a = g a) : l.map f = l.map g := by
  induction l with
  | nil => rfl
  | cons x t ih =>
    simp only [List.map_cons, h x (List.mem_cons_self x t)]
    rw [ih (fun a ha => h a (List.mem_cons_of_mem x ha))]

lemma readyUsers_filter (l : List ImportedUser) (p : ImportedUser → Bool) :
    readyUsers (l.filter p) = (readyUsers l).filter p := by
  unfold readyUsers
  exact List.filter_comm _ p l

lemma nodup_ids_filter (l : List ImportedUser) (p : ImportedUser → Bool)
    (hn : (l.map ImportedUser.id).Nodup) :
    ((l.filter p).map ImportedUser.id).Nodup :=
  hn.sublist ((List.filter_sublist l).map ImportedUser.id)

lemma readyUsers_delete (l : List ImportedUser) (iu : ImportedUser)
    (rest : List ImportedUser)
    (hn : (l.map ImportedUser.id).Nodup)
    (hr : readyUsers l = iu :: rest) :
    readyUsers (deleteImportedUser l iu.id) = rest := by
  have h1 : ((iu :: rest).map ImportedUser.id).Nodup := by
    rw [← hr]
    exact nodup_ids_filter l _ hn
  have h2 : iu.id ∉ rest.map ImportedUser.id :=
    (List.nodup_cons.mp (by simpa using h1)).1
  show readyUsers (l.filter _) = rest
  rw [readyUsers_filter, hr, List.filter_cons]
  have hc : (decide (iu.id ≠ iu.id)) = false := by simp
  simp only [hc, Bool.false_eq_true, if_false]
  apply List.filter_eq_self.mpr
  intro r hrr
  simp only [decide_eq_true_eq]
  intro heq
  exact h2 (by rw [← heq]; exact List.mem_map_of_mem ImportedUser.id hrr)

lemma readyUsers_replace (iu iuE : ImportedUser) (hid : iuE.id = iu.id)
    (hnr : ¬(iuE.status = ImportStatus.ready)) :
    ∀ (l : List ImportedUser) (rest : List ImportedUser),
      (l.map ImportedUser.id).Nodup →
      readyUsers l = iu :: rest →
      readyUsers (l.map (fun x => if x.id = iuE.id then iuE else x)) = rest := by
  intro l
  induction l with
  | nil =>
    intro rest _ hr
    simp [readyUsers] at hr
  | cons x t ih =>
    intro rest hn hr
    have hnt : (t.map ImportedUser.id).Nodup :=
      (List.nodup_cons.mp (by simpa using hn)).2
    have hxid : x.id ∉ t.map ImportedUser.id :=
      (List.nodup_cons.mp (by simpa using hn)).1
    by_cases hx : x.id = iuE.id
    · by_cases hrx : x.status = ImportStatus.ready
      · have hcons : x :: readyUsers t = iu :: rest := by
          simpa [readyUsers, List.filter_cons, hrx] using hr
        injection hcons with hxiu hrt
        have hmap : t.map (fun y => if y.id = iuE.id then iuE else y) = t := by
          apply map_id_on
          intro a ha
          rw [if_neg]
          intro hEq
          exact hxid (by rw [hx.trans hEq.symm]; exact List.mem_map_of_mem ImportedUser.id ha)
        rw [List.map_cons, if_pos hx, hmap]
        simpa [readyUsers, List.filter_cons, hnr] using hrt
      · have hrt : readyUsers t = iu :: rest := by
          simpa [readyUsers, List.filter_cons, hrx] using hr
        have hiu : iu ∈ t :=
          List.mem_of_mem_filter (hrt ▸ List.mem_cons_self iu rest)
        have hxiu : x.id = iu.id := hx.trans hid
        exact absurd (by rw [hxiu]; exact List.mem_map_of_mem ImportedUser.id hiu) hxid
    · by_cases hrx : x.status = ImportStatus.ready
      · have hcons : x :: readyUsers t = iu :: rest := by
          simpa [readyUsers, List.filter_cons, hrx] using hr
        injection hcons with hxiu hrt
        exact absurd (by rw [hxiu, ← hid]) hx
      · have hrt : readyUsers t = iu :: rest := by
          simpa [readyUsers, List.filter_cons, hrx] using hr
        rw [List.map_cons, if_neg hx]
        have hres := ih rest hnt hrt
        simpa [readyUsers, List.filter_cons, hrx] using hres

lemma readyUsers_saveError (l : List ImportedUser) (iu iuE : ImportedUser)
    (rest : List ImportedUser)
    (hn : (l.map ImportedUser.id).Nodup)
    (hr : readyUsers l = iu :: rest)
    (hid : iuE.id = iu.id)
    (hnr : ¬(iuE.status = ImportStatus.ready)) :
    readyUsers (saveImportedUser l iuE) = rest ∧
    (saveImportedUser l iuE).map ImportedUser.id = l.map ImportedUser.id := by
  have hmem : iu ∈ l :=
    List.mem_of_mem_filter (hr ▸ List.mem_cons_self iu rest)
  have hany : l.any (fun x => decide (x.id = iuE.id)) = true :=
    List.any_eq_true.mpr ⟨iu, hmem, by simp [hid]⟩
  unfold saveImportedUser
  rw [if_pos hany]
  refine ⟨readyUsers_replace iu iuE hid hnr l rest hn hr, ?_⟩
  rw [List.map_map]
  apply map_eq_map_on
  intro a _
  by_cases ha : a.id = iuE.id
  · simp [Function.comp, ha]
  · simp [Function.comp, ha]

lemma merge_noFaults_cases (s : TenantState) (iu : ImportedUser) :
    (∃ u : List User, ∃ n : Nat, mergeImportedUser noFaults s iu =
        (⟨deleteImportedUser s.importedUsers iu.id, u, n, s.lockHeld⟩, none)) ∨
    (∃ m : String, mergeImportedUser noFaults s iu = (s, some m)) := by
  cases hfind : getUserByEmail s.users iu.email with
  | none =>
    have heq : mergeImportedUser noFaults s iu =
        (⟨deleteImportedUser s.importedUsers iu.id,
          saveUserStatus
            (saveUserRole (s.users ++ [{ newUserOf iu with id := s.nextUserId }])
              s.nextUserId UserRole.basic)
            s.nextUserId UserStatus.active,
          s.nextUserId + 1, s.lockHeld⟩, none) := by
      simp [mergeImportedUser, noFaults, hfind, createUser]
    exact Or.inl ⟨_, _, heq⟩
  | some fu =>
    cases hi : fu.issuer with
    | false =>
      have heq : mergeImportedUser noFaults s iu =
          (s, some "User is not local to the organization") := by
        simp [mergeImportedUser, noFaults, hfind, hi]
      exact Or.inr ⟨_, heq⟩
    | true =>
      cases hd : fu.deleted with
      | true =>
        have heq : mergeImportedUser noFaults s iu = (s, some "User is deleted") := by
          simp [mergeImportedUser, noFaults, hfind, hi, hd]
        exact Or.inr ⟨_, heq⟩
      | false =>
        by_cases hp : fu.status = UserStatus.pending
        · have heq : mergeImportedUser noFaults s iu =
              (⟨deleteImportedUser s.importedUsers iu.id,
                saveUser s.users { fu with name := iu.name, firstName := iu.firstName },
                s.nextUserId, s.lockHeld⟩, none) := by
            simp [mergeImportedUser, noFaults, hfind, hi, hd, hp]
          exact Or.inl ⟨_, _, heq⟩
        · have heq : mergeImportedUser noFaults s iu =
              (s, some "User account is no longer pending") := by
            simp [mergeImportedUser, noFaults, hfind, hi, hd, hp]
          exact Or.inr ⟨_, heq⟩

lemma processOne_ready (s : TenantState) (iu : ImportedUser)
    (rest : List ImportedUser) (res : ActionsResponse)
    (hn : (s.importedUsers.map ImportedUser.id).Nodup)
    (hr : readyUsers s.importedUsers = iu :: rest) :
    (processImportedUser noFaults s iu res).err = none ∧
    (processImportedUser noFaults s iu res).log = [iu.id] ∧
    readyUsers (processImportedUser noFaults s iu res).state.importedUsers = rest ∧
    ((processImportedUser noFaults s iu res).state.importedUsers.map ImportedUser.id).Nodup ∧
    (processImportedUser noFaults s iu res).res.inSuccess +
        (processImportedUser noFaults s iu res).res.inError =
      res.inSuccess + res.inError + 1 := by
  rcases merge_noFaults_cases s iu with ⟨u, n, hm⟩ | ⟨m, hm⟩
  · rw [merge_success noFaults s _ iu res hm]
    refine ⟨rfl, rfl, ?_, ?_, ?_⟩
    · exact readyUsers_delete s.importedUsers iu rest hn hr
    · exact nodup_ids_filter s.importedUsers _ hn
    · simp
      omega
  · rw [merge_error noFaults s s iu res m hm rfl]
    obtain ⟨h1, h2⟩ := readyUsers_saveError s.importedUsers iu (markError iu m) rest
      hn hr rfl (by simp [markError])
    refine ⟨rfl, rfl, h1, ?_, ?_⟩
    · show ((saveImportedUser s.importedUsers (markError iu m)).map ImportedUser.id).Nodup
      rw [h2]
      exact hn
    · simp
      omega

lemma processPage_ready (page : List ImportedUser) :
    ∀ (s : TenantState) (res : ActionsResponse) (rest : List ImportedUser),
      (s.importedUsers.map ImportedUser.id).Nodup →
      readyUsers s.importedUsers = page ++ rest →
      (processPage noFaults s page res).err = none ∧
      (processPage noFaults s page res).log = page.map ImportedUser.id ∧
      readyUsers (processPage noFaults s page res).state.importedUsers = rest ∧
      ((processPage noFaults s page res).state.importedUsers.map ImportedUser.id).Nodup ∧
      (processPage noFaults s page res).res.inSuccess +
          (processPage noFaults s page res).res.inError =
        res.inSuccess + res.inError + page.length := by
  induction page with
  | nil =>
    intro s res rest hn hr
    exact ⟨rfl, rfl, by simpa using hr, hn, by simp [processPage]⟩
  | cons p t ih =>
    intro s res rest hn hr
    have hr1 : readyUsers s.importedUsers = p :: (t ++ rest) := by simpa using hr
    obtain ⟨he, hl, hrd, hnd, hc⟩ := processOne_ready s p (t ++ rest) res hn hr1
    cases hx : processImportedUser noFaults s p res with
    | mk st1 r1 e1 lg1 =>
      rw [hx] at he hl hrd hnd hc
      simp only at he hl hrd hnd hc
      subst he hl
      obtain ⟨ihe, ihl, ihrd, ihnd, ihc⟩ := ih st1 r1 rest hnd hrd
      simp only [processPage, hx]
      exact ⟨ihe, by rw [ihl]; rfl, ihrd, ihnd, by simp at ihc ⊢; omega⟩

lemma importLoop_noFaults_succ (fuel idx : Nat) (s : TenantState)
    (res : ActionsResponse) :
    importLoop noFaults (fuel + 1) idx s res =
      (let page := getImportedUsers s.importedUsers
       let st := processPage noFaults s page res
       match st.err with
       | some m => ⟨st.state, st.res, LoopExit.escaped m, st.log⟩
       | none =>
         if page.isEmpty then ⟨st.state, st.res, LoopExit.finished, st.log⟩
         else
           let r := importLoop noFaults fuel (idx + 1) st.state st.res
           ⟨r.state, r.res, r.exit, st.log ++ r.log⟩) := rfl

lemma importLoop_noFaults_ready (fuel : Nat) :
    ∀ (idx : Nat) (s : TenantState) (res : ActionsResponse),
      (s.importedUsers.map ImportedUser.id).Nodup →
      (readyUsers s.importedUsers).length < fuel →
      (importLoop noFaults fuel idx s res).exit = LoopExit.finished ∧
      (importLoop noFaults fuel idx s res).log =
        (readyUsers s.importedUsers).map ImportedUser.id ∧
      readyUsers (importLoop noFaults fuel idx s res).state.importedUsers = [] ∧
      (importLoop noFaults fuel idx s res).res.inSuccess +
          (importLoop noFaults fuel idx s res).res.inError =
        res.inSuccess + res.inError + (readyUsers s.importedUsers).length := by
  induction fuel with
  | zero =>
    intro idx s res hn hf
    exact absurd hf (Nat.not_lt_zero _)
  | succ fuel ih =>
    intro idx s res hn hf
    have hsplit : readyUsers s.importedUsers =
        getImportedUsers s.importedUsers ++
          (readyUsers s.importedUsers).drop IMPORT_PAGE_SIZE := by
      unfold getImportedUsers
      exact (List.take_append_drop _ _).symm
    obtain ⟨he, hl, hrd, hnd, hc⟩ :=
      processPage_ready (getImportedUsers s.importedUsers) s res _ hn hsplit
    rw [importLoop_noFaults_succ]
    by_cases hpage : getImportedUsers s.importedUsers = []
    · have hready : readyUsers s.importedUsers = [] := by
        unfold getImportedUsers at hpage
        rcases List.take_eq_nil_iff.mp hpage with h | h
        · exact absurd h (by simp [IMPORT_PAGE_SIZE])
        · exact h
      rw [hpage] at he hl hrd hnd hc ⊢
      cases hx : processPage noFaults s [] res with
      | mk st1 r1 e1 lg1 =>
        rw [hx] at he hl hrd hnd hc
        simp only at he hl hrd hnd hc
        subst he hl
        simp only [hx, List.isEmpty_nil, if_true, List.map_nil]
        refine ⟨by trivial, ?_, ?_, ?_⟩
        · simp [hready]
        · rw [hrd, hready]
          simp
        · simp only [hready, List.length_nil, List.length_cons] at hc ⊢
          omega
    · cases hx : processPage noFaults s (getImportedUsers s.importedUsers) res with
      | mk st1 r1 e1 lg1 =>
        rw [hx] at he hl hrd hnd hc
        simp only at he hl hrd hnd hc
        subst he hl
        have hplen : 0 < (getImportedUsers s.importedUsers).length :=
          List.length_pos.mpr hpage
        have hlen : (readyUsers s.importedUsers).length =
            (getImportedUsers s.importedUsers).length +
              ((readyUsers s.importedUsers).drop IMPORT_PAGE_SIZE).length := by
          conv_lhs => rw [hsplit]
          rw [List.length_append]
        rw [List.length_drop] at hlen
        have hflt : (readyUsers st1.importedUsers).length < fuel := by
          rw [hrd, List.length_drop]
          omega
        obtain ⟨ihe, ihl, ihrd, ihc⟩ := ih (idx + 1) st1 r1 hnd hflt
        have hne : (getImportedUsers s.importedUsers).isEmpty = false := by
          cases hg : getImportedUsers s.importedUsers with
          | nil => exact absurd hg hpage
          | cons a b => rfl
        simp only [hx, hne, Bool.false_eq_true, if_false]
        refine ⟨ihe, ?_, ihrd, ?_⟩
        · show List.map ImportedUser.id (getImportedUsers s.importedUsers) ++ _ = _
          rw [ihl, hrd]
          conv_rhs => rw [hsplit]
          rw [List.map_append]
        · rw [hrd, List.length_drop] at ihc
          omega

lemma processTenant_noFaults (s : TenantState)
    (h : s.lockHeld = false) (hn : (s.importedUsers.map ImportedUser.id).Nodup) :
    (processTenant noFaults s).faultReported = none ∧
    (processTenant noFaults s).reported = some (processTenant noFaults s).result ∧
    (processTenant noFaults s).log =
      (readyUsers s.importedUsers).map ImportedUser.id ∧
    readyUsers (processTenant noFaults s).state.importedUsers = [] ∧
    (processTenant noFaults s).state.lockHeld = false ∧
    (processTenant noFaults s).result.inSuccess +
        (processTenant noFaults s).result.inError =
      (readyUsers s.importedUsers).length := by
  have hle : (readyUsers s.importedUsers).length ≤ s.importedUsers.length :=
    List.length_filter_le _ s.importedUsers
  have hfuel : (readyUsers s.importedUsers).length < s.importedUsers.length + 1 := by
    omega
  obtain ⟨hex, hlog, hrd, hcount⟩ :=
    importLoop_noFaults_ready (s.importedUsers.length + 1) 0
      { s with lockHeld := true } ⟨0, 0⟩ hn hfuel
  unfold processTenant
  rw [h]
  simp only [Bool.false_eq_true, if_false]
  cases hres : importLoop noFaults (s.importedUsers.length + 1) 0
      { s with lockHeld := true } ⟨0, 0⟩ with
  | mk st r ex lg =>
    rw [hres] at hex hlog hrd hcount
    simp only at hex hlog hrd hcount
    subst hex hlog
    simp only [noFaults]
    exact ⟨trivial, trivial, trivial, hrd, trivial, by omega⟩

lemma processTenant_empty (t : TenantState) (h : t.lockHeld = false)
    (hready : readyUsers t.importedUsers = []) :
    processTenant noFaults t = ⟨t, ⟨0, 0⟩, some ⟨0, 0⟩, none, []⟩ := by
  have hpage : getImportedUsers t.importedUsers = [] := by
    unfold getImportedUsers
    rw [hready]
    rfl
  have hloop : importLoop noFaults (t.importedUsers.length + 1) 0
      { t with lockHeld := true } ⟨0, 0⟩ =
      ⟨{ t with lockHeld := true }, ⟨0, 0⟩, LoopExit.finished, []⟩ := by
    rw [importLoop_noFaults_succ]
    simp [hpage, processPage]
  have hstate : ({ t with lockHeld := false } : TenantState) = t := by
    cases t with
    | mk a b c d =>
      simp only at h
      subst h
      rfl
  unfold processTenant
  rw [h]
  simp only [Bool.false_eq_true, if_false, hloop]
  rw [hstate]
  rfl

/-- Claim C7: a fault-free run over any staging store with distinct record
ids attempts exactly the READY candidates, each exactly once, in staging
order (the attempt log equals the list of READY ids), leaves no READY
candidate behind (the loop terminated on an empty page), and the counters
sum to the number of READY candidates. -/
theorem claimC7_pagination (s : TenantState)
    (h : s.lockHeld = false) (hn : (s.importedUsers.map ImportedUser.id).Nodup) :
    (processTenant noFaults s).log =
      (readyUsers s.importedUsers).map ImportedUser.id ∧
    (processTenant noFaults s).log.Nodup ∧
    readyUsers (processTenant noFaults s).state.importedUsers = [] ∧
    (processTenant noFaults s).result.inSuccess +
        (processTenant noFaults s).result.inError =
      (readyUsers s.importedUsers).length := by
  obtain ⟨h1, h2, h3, h4, h5, h6⟩ := processTenant_noFaults s h hn
  refine ⟨h3, ?_, h4, h6⟩
  rw [h3]
  exact nodup_ids_filter s.importedUsers _ hn

theorem claimC7_witness :
    (TenantState.mk [iuA, iuB, iuC] [] 1 false).lockHeld = false ∧
    (([iuA, iuB, iuC] : List ImportedUser).map ImportedUser.id).Nodup ∧
    (processTenant noFaults ⟨[iuA, iuB, iuC], [], 1, false⟩).log = [1, 2, 3] ∧
    readyUsers (processTenant noFaults ⟨[iuA, iuB, iuC], [], 1, false⟩).state.importedUsers
      = [] ∧
    (processTenant noFaults ⟨[iuA, iuB, iuC], [], 1, false⟩).result.inSuccess +
      (processTenant noFaults ⟨[iuA, iuB, iuC], [], 1, false⟩).result.inError = 3 := by
  have h := claimC7_pagination ⟨[iuA, iuB, iuC], [], 1, false⟩ rfl (by decide)
  exact ⟨rfl, by decide, h.1.trans (by decide), h.2.2.1, h.2.2.2.trans (by decide)⟩

/-- Claim C8: running the pass a second time with no new candidates makes
no change at all: the second run returns the first-run state unchanged,
attempts no candidate, and reports inSuccess zero and inError zero —
candidates marked ERROR by the first run are excluded from the READY
query. -/
theorem claimC8_idempotent (s : TenantState)
    (h : s.lockHeld = false) (hn : (s.importedUsers.map ImportedUser.id).Nodup) :
    processTenant noFaults (processTenant noFaults s).state =
      ⟨(processTenant noFaults s).state, ⟨0, 0⟩, some ⟨0, 0⟩, none, []⟩ := by
  obtain ⟨h1, h2, h3, h4, h5, h6⟩ := processTenant_noFaults s h hn
  exact processTenant_empty _ h5 h4

theorem claimC8_witness :
    (TenantState.mk [iuA, iuB, iuC] [] 1 false).lockHeld = false ∧
    (([iuA, iuB, iuC] : List ImportedUser).map ImportedUser.id).Nodup ∧
    processTenant noFaults
        (processTenant noFaults ⟨[iuA, iuB, iuC], [], 1, false⟩).state =
      ⟨(processTenant noFaults ⟨[iuA, iuB, iuC], [], 1, false⟩).state,
       ⟨0, 0⟩, some ⟨0, 0⟩, none, []⟩ :=
  ⟨rfl, by decide, claimC8_idempotent ⟨[iuA, iuB, iuC], [], 1, false⟩ rfl (by decide)⟩

end ImportUsersTask
